import Mathlib

/-!
Verification of the streaming response transcoder in `src/worker.js`
(an OpenAI-to-NVIDIA-NIM proxy worker).

The JavaScript source is shallowly embedded: JS strings become `String`
(or `List Char` at the wire level), the per-exchange mutable state
(`buffer`, `reasoningStarted`) is threaded explicitly, and library calls
that cannot be embedded (`JSON.parse` / `JSON.stringify`) are oracle
parameters of the pump configuration.
-/

/-- One `choices[0].delta` object of an upstream data frame: the two fields
the worker inspects (`reasoning_content`, `content`, lines 188-189 of
`worker.js`), plus the remaining fields it never touches, kept opaque. -/
structure Delta where
  reasoning_content : Option String
  content : Option String
  rest : List (String × String)
  deriving DecidableEq, Repr

/-- JS truthiness of an optional string: present and nonempty. -/
def truthy : Option String → Bool
  | none => false
  | some s => !s.isEmpty

/-- The string value of an optional field, `""` when absent. -/
def strVal : Option String → String
  | none => ""
  | some s => s

def thinkOpenTag : String := "<think>\n"

def thinkCloseTag : String := "\n</think>\n\n"

/-- Lines 191-211 of `worker.js` (the `SHOW_REASONING` branch): build
`combinedContent` from the delta's reasoning and answer text, update
`reasoningStarted`, and rewrite the delta only when `combinedContent`
is truthy (nonempty). -/
def mergeTrue (reasoningStarted : Bool) (d : Delta) : Delta × Bool :=
  let c1 : String :=
    if truthy d.reasoning_content && !reasoningStarted then
      thinkOpenTag ++ strVal d.reasoning_content
    else if truthy d.reasoning_content then strVal d.reasoning_content
    else ""
  let s1 : Bool :=
    if truthy d.reasoning_content && !reasoningStarted then true else reasoningStarted
  let c2 : String :=
    if truthy d.content && s1 then c1 ++ thinkCloseTag ++ strVal d.content
    else if truthy d.content then c1 ++ strVal d.content
    else c1
  let s2 : Bool := if truthy d.content && s1 then false else s1
  if c2.isEmpty then (d, s2)
  else ({ reasoning_content := none, content := some c2, rest := d.rest }, s2)

/-- Lines 212-219 of `worker.js` (the `else` branch, reasoning hidden):
content is kept when truthy, replaced by `""` otherwise, and
`reasoning_content` is always deleted. -/
def mergeFalse (d : Delta) : Delta :=
  { reasoning_content := none
    content := if truthy d.content then d.content else some ""
    rest := d.rest }

/-- One merger step at display policy `showR`; the `false` branch never
touches `reasoningStarted`. -/
def mergeStep (showR : Bool) (s : Bool) (d : Delta) : Delta × Bool :=
  if showR then mergeTrue s d else (mergeFalse d, s)

/-- Run the merger over a payload sequence, threading `reasoningStarted`. -/
def runMerge (showR : Bool) : Bool → List Delta → List Delta × Bool
  | s, [] => ([], s)
  | s, d :: ds =>
    let p := mergeStep showR s d
    let q := runMerge showR p.2 ds
    (p.1 :: q.1, q.2)

/-- Concatenation of the content fields the client would see for a
streamed payload sequence, starting from the initial closed state. -/
def streamContent (showR : Bool) (ds : List Delta) : String :=
  ((runMerge showR false ds).1.map (fun d => strVal d.content)).foldl (· ++ ·) ""

/-- `buffer.split('\n')` of line 171 of `worker.js`, on character lists:
never empty, and splitting the empty text gives `[[]]` as in JS. -/
def splitNl : List Char → List (List Char)
  | [] => [[]]
  | c :: cs =>
    match splitNl cs with
    | [] => [[]]
    | l :: ls => if c = '\n' then [] :: l :: ls else (c :: l) :: ls

theorem splitNl_ne_nil (l : List Char) : splitNl l ≠ [] := by
  cases l with
  | nil => simp [splitNl]
  | cons c cs =>
    simp only [splitNl]
    cases splitNl cs with
    | nil => simp
    | cons a as => by_cases h : c = '\n' <;> simp [h]

/-- Prepend `x` to the first element of a list of lines. -/
def joinHead (x : List Char) : List (List Char) → List (List Char)
  | [] => [x]
  | l :: ls => (x ++ l) :: ls

theorem splitNl_cons_nl (cs : List Char) : splitNl ('\n' :: cs) = [] :: splitNl cs := by
  simp only [splitNl]
  cases h : splitNl cs with
  | nil => exact absurd h (splitNl_ne_nil cs)
  | cons a as => simp

theorem splitNl_cons (c : Char) (cs : List Char) (h : ¬c = '\n') :
    splitNl (c :: cs) = joinHead [c] (splitNl cs) := by
  simp only [splitNl]
  cases hcs : splitNl cs with
  | nil => exact absurd hcs (splitNl_ne_nil cs)
  | cons a as => simp [joinHead, h]

theorem newline_not_mem_splitNl (l : List Char) : ∀ x ∈ splitNl l, '\n' ∉ x := by
  induction l with
  | nil =>
    intro x hx
    simp [splitNl] at hx
    simp [hx]
  | cons c cs ih =>
    intro x hx
    by_cases h : c = '\n'
    · subst h
      rw [splitNl_cons_nl] at hx
      rcases List.mem_cons.mp hx with h1 | h2
      · simp [h1]
      · exact ih x h2
    · rw [splitNl_cons c cs h] at hx
      cases hcs : splitNl cs with
      | nil => exact absurd hcs (splitNl_ne_nil cs)
      | cons a as =>
        rw [hcs] at hx
        simp only [joinHead, List.singleton_append, List.mem_cons] at hx
        rcases hx with h1 | h2
        · subst h1
          simp only [List.mem_cons, not_or]
          refine ⟨fun hh => h hh.symm, ?_⟩
          exact ih a (by rw [hcs]; exact List.mem_cons_self a as)
        · exact ih x (by rw [hcs]; exact List.mem_cons_of_mem a h2)

theorem splitNl_no_newline (l : List Char) (h : '\n' ∉ l) : splitNl l = [l] := by
  induction l with
  | nil => rfl
  | cons c cs ih =>
    have hc : ¬c = '\n' := fun hh => h (hh ▸ List.mem_cons_self c cs)
    have hcs : '\n' ∉ cs := fun hh => h (List.mem_cons_of_mem c hh)
    rw [splitNl_cons c cs hc, ih hcs]
    simp [joinHead]

/-- Glue two line lists: the last line of the first is a prefix of the
first line of the second (as happens when the underlying texts are
concatenated). -/
def glue : List (List Char) → List (List Char) → List (List Char)
  | [], ys => ys
  | [x], ys => joinHead x ys
  | x :: y :: xs, ys => x :: glue (y :: xs) ys

theorem joinHead_nil (ys : List (List Char)) (h : ys ≠ []) : joinHead [] ys = ys := by
  cases ys with
  | nil => exact absurd rfl h
  | cons a as => simp [joinHead]

theorem joinHead_ne_nil (x : List Char) (ys : List (List Char)) : joinHead x ys ≠ [] := by
  cases ys <;> simp [joinHead]

theorem joinHead_joinHead (x y : List Char) (ys : List (List Char)) :
    joinHead x (joinHead y ys) = joinHead (x ++ y) ys := by
  cases ys <;> simp [joinHead]

theorem joinHead_glue (x : List Char) (xs ys : List (List Char)) (hxs : xs ≠ []) :
    joinHead x (glue xs ys) = glue (joinHead x xs) ys := by
  cases xs with
  | nil => exact absurd rfl hxs
  | cons a as =>
    cases as with
    | nil => cases ys <;> simp [glue, joinHead, List.append_assoc]
    | cons b bs => simp [glue, joinHead]

theorem splitNl_append (a b : List Char) :
    splitNl (a ++ b) = glue (splitNl a) (splitNl b) := by
  induction a with
  | nil =>
    show splitNl b = glue [[]] (splitNl b)
    rw [show glue [[]] (splitNl b) = joinHead [] (splitNl b) from rfl,
      joinHead_nil _ (splitNl_ne_nil b)]
  | cons c cs ih =>
    by_cases h : c = '\n'
    · subst h
      rw [List.cons_append, splitNl_cons_nl, splitNl_cons_nl, ih]
      cases hcs : splitNl cs with
      | nil => exact absurd hcs (splitNl_ne_nil cs)
      | cons d ds => simp [glue]
    · rw [List.cons_append, splitNl_cons _ _ h, splitNl_cons _ _ h, ih,
        joinHead_glue _ _ _ (splitNl_ne_nil cs)]

theorem getLastD_mem {α : Type} (l : List α) (d : α) (h : l ≠ []) : l.getLastD d ∈ l := by
  induction l generalizing d with
  | nil => exact absurd rfl h
  | cons a as ih =>
    cases as with
    | nil => simp [List.getLastD]
    | cons b bs =>
      have := ih (d := a) (by simp)
      simp only [List.getLastD] at this ⊢
      exact List.mem_cons_of_mem a this

theorem getLastD_splitNl_no_newline (x : List Char) : '\n' ∉ (splitNl x).getLastD [] :=
  newline_not_mem_splitNl x _ (getLastD_mem _ _ (splitNl_ne_nil x))

theorem glue_eq_dropLast_append (xs ys : List (List Char)) (hxs : xs ≠ []) :
    glue xs ys = xs.dropLast ++ joinHead (xs.getLastD []) ys := by
  induction xs with
  | nil => exact absurd rfl hxs
  | cons a as ih =>
    cases as with
    | nil => simp [glue, List.getLastD]
    | cons b bs =>
      rw [show glue (a :: b :: bs) ys = a :: glue (b :: bs) ys from rfl, ih (by simp)]
      simp [List.getLastD]

/-- Lines 170-172 of `worker.js`: append the decoded chunk to the buffer,
split on newline, return the complete lines and keep the last element as
the new buffer (`buffer = lines.pop() || ''`). -/
def feed (buffer chunk : List Char) : List (List Char) × List Char :=
  let lines := splitNl (buffer ++ chunk)
  (lines.dropLast, lines.getLastD [])

/-- Iterate `feed` over a chunk sequence, collecting all complete lines. -/
def feedAll : List Char → List (List Char) → List (List Char) × List Char
  | buffer, [] => ([], buffer)
  | buffer, c :: cs =>
    let p := feed buffer c
    let q := feedAll p.2 cs
    (p.1 ++ q.1, q.2)

/-- Feeding a chunk sequence is equivalent to splitting the whole
concatenation at once: the complete lines are everything but the last
split element, and the buffer is the last split element. -/
theorem feedAll_eq (chunks : List (List Char)) :
    ∀ buffer : List Char, '\n' ∉ buffer →
    feedAll buffer chunks =
      ((splitNl (buffer ++ chunks.flatten)).dropLast,
        (splitNl (buffer ++ chunks.flatten)).getLastD []) := by
  induction chunks with
  | nil =>
    intro buffer hb
    simp [feedAll, splitNl_no_newline buffer hb, List.getLastD]
  | cons c cs ih =>
    intro buffer hb
    have hb' : '\n' ∉ (splitNl (buffer ++ c)).getLastD [] := getLastD_splitNl_no_newline _
    simp only [feedAll, feed]
    rw [ih _ hb']
    have h1 : splitNl ((splitNl (buffer ++ c)).getLastD [] ++ cs.flatten)
        = joinHead ((splitNl (buffer ++ c)).getLastD []) (splitNl cs.flatten) := by
      rw [splitNl_append, splitNl_no_newline _ hb']
      rfl
    have h2 : splitNl (buffer ++ (c ++ cs.flatten))
        = glue (splitNl (buffer ++ c)) (splitNl cs.flatten) := by
      rw [← List.append_assoc, splitNl_append]
    rw [List.flatten_cons, h1, h2, glue_eq_dropLast_append _ _ (splitNl_ne_nil _)]
    refine Prod.ext ?_ ?_
    · simp only
      rw [List.dropLast_append_of_ne_nil _ (joinHead_ne_nil _ _)]
    · simp only [List.getLastD_eq_getLast?]
      rw [List.getLast?_append_of_ne_nil _ (joinHead_ne_nil _ _)]

def dataMarker : List Char := "data: ".toList

def doneTok : List Char := "[DONE]".toList

def nl2 : List Char := "\n\n".toList

/-- The synthesized terminal frame of lines 166 and 238. -/
def doneFrame : List Char := "data: [DONE]\n\n".toList

/-- The canonical upstream terminal line. -/
def doneLineRaw : List Char := "data: [DONE]".toList

/-- JS `String.trim` (lines 153, 156, 175): strip whitespace from both
ends, modelled with `Char.isWhitespace`. -/
def trimL (l : List Char) : List Char :=
  ((l.dropWhile Char.isWhitespace).reverse.dropWhile Char.isWhitespace).reverse

/-- `!line.trim()`: the line is blank after trimming. -/
def isBlankL (l : List Char) : Bool := trimL l == []

/-- Classification of one complete line by the branch structure of lines
174-230 of `worker.js`. -/
inductive Frame where
  | term (raw : List Char)
  | data (raw : List Char)
  | other (raw : List Char)
  deriving DecidableEq, Repr

/-- JS `line.includes(tok)`: substring containment. -/
def hasTok (tok l : List Char) : Bool := decide (tok <:+: l)

/-- Blank lines produce no frame; `data: ` lines containing the terminal
token are terminal frames; other `data: ` lines are data frames (JSON
parsing is attempted downstream); remaining lines reach no branch. -/
def classify (l : List Char) : Option Frame :=
  if isBlankL l then none
  else if dataMarker.isPrefixOf l then
    if hasTok doneTok l then some (.term l) else some (.data l)
  else some (.other l)

/-- The ordered frame sequence the parser produces from a chunk sequence. -/
def frameSeq (chunks : List (List Char)) : List Frame :=
  ((feedAll [] chunks).1).filterMap classify

/-- C2: for any two chunk sequences whose concatenations are equal, the
parser produces the identical ordered frame sequence (and even the
identical complete-line sequence), and the line buffer never contains a
newline — it holds at most one trailing incomplete line. -/
theorem parser_chunk_boundary_invariant (cs1 cs2 : List (List Char))
    (h : cs1.flatten = cs2.flatten) :
    frameSeq cs1 = frameSeq cs2 ∧ (feedAll [] cs1).1 = (feedAll [] cs2).1 ∧
      ∀ cs : List (List Char), '\n' ∉ (feedAll [] cs).2 := by
  have key : ∀ cs : List (List Char), feedAll [] cs =
      ((splitNl cs.flatten).dropLast, (splitNl cs.flatten).getLastD []) := by
    intro cs
    simpa using feedAll_eq cs [] (by simp)
  refine ⟨?_, ?_, ?_⟩
  · unfold frameSeq
    rw [key cs1, key cs2, h]
  · rw [key cs1, key cs2, h]
  · intro cs
    rw [key cs]
    exact getLastD_splitNl_no_newline _

/-- Witness for C2: `"data: x\ndata: y\n"` split at an offset inside the
second line parses identically to the unsplit text. -/
theorem parser_chunk_boundary_invariant_witness :
    (["data: x\nda".toList, "ta: y\n".toList] : List (List Char)).flatten
        = (["data: x\ndata: y\n".toList] : List (List Char)).flatten ∧
      (frameSeq ["data: x\nda".toList, "ta: y\n".toList]
          = frameSeq ["data: x\ndata: y\n".toList] ∧
        (feedAll [] ["data: x\nda".toList, "ta: y\n".toList]).1
            = (feedAll [] ["data: x\ndata: y\n".toList]).1 ∧
        ∀ cs : List (List Char), '\n' ∉ (feedAll [] cs).2) :=
  ⟨by decide, parser_chunk_boundary_invariant _ _ (by decide)⟩

/-- Result of the `JSON.parse` attempt of line 185 on the text after the
`data: ` marker. -/
inductive ParseOut where
  | fail
  | other (out : List Char)
  | delta (d : Delta)

/-- The unembeddable JSON library calls as oracles: `parse` models
`JSON.parse` of line 185 (`.fail` = the call threw; `.other out` =
parsed, but `choices?.[0]?.delta` is absent, with `out` the
`JSON.stringify` text of the unmodified payload; `.delta d` = parsed with
delta `d`), and `ser` models `JSON.stringify` of line 223 applied to the
whole payload — reconstructed by the oracle from the original line — with
its delta rewritten. -/
structure PumpCfg where
  showReasoning : Bool
  parse : List Char → ParseOut
  ser : List Char → Delta → List Char

/-- Lines 174-230 of `worker.js`: process one complete line of the main
loop. Blank lines are skipped; `data: ` lines containing `[DONE]` are
forwarded verbatim; other `data: ` lines are parsed, merged and
re-serialized, or forwarded verbatim when `JSON.parse` throws. A line
without the `data: ` prefix matches no branch: nothing is written. -/
def processLine (cfg : PumpCfg) (s : Bool) (l : List Char) : List (List Char) × Bool :=
  if isBlankL l then ([], s)
  else if dataMarker.isPrefixOf l then
    if hasTok doneTok l then ([l ++ nl2], s)
    else
      match cfg.parse (l.drop 6) with
      | .fail => ([l ++ nl2], s)
      | .other out => ([dataMarker ++ out ++ nl2], s)
      | .delta d =>
        let p := mergeStep cfg.showReasoning s d
        ([dataMarker ++ cfg.ser l p.1 ++ nl2], p.2)
  else ([], s)

def processLines (cfg : PumpCfg) : Bool → List (List Char) → List (List Char) × Bool
  | s, [] => ([], s)
  | s, l :: ls =>
    let p := processLine cfg s l
    let q := processLines cfg p.2 ls
    (p.1 ++ q.1, q.2)

/-- Lines 152-164 of `worker.js`: at end-of-input, if the buffer is
non-blank, split it on newline and forward verbatim every line whose
trimmed form starts with the marker and which does not contain the
terminal token. -/
def flushBuffer (buffer : List Char) : List (List Char) :=
  if isBlankL buffer then []
  else (splitNl buffer).filterMap fun l =>
    if dataMarker.isPrefixOf (trimL l) && !hasTok doneTok l then some (l ++ nl2)
    else none

/-- The happy-path streaming loop (lines 146-232, all reads and writes
succeed): the ordered sequence of texts written downstream, ending with
the synthesized terminal frame of line 166. -/
def pumpRun (cfg : PumpCfg) : List Char → Bool → List (List Char) → List (List Char)
  | buffer, _, [] => flushBuffer buffer ++ [doneFrame]
  | buffer, s, c :: rest =>
    let parts := splitNl (buffer ++ c)
    let p := processLines cfg s parts.dropLast
    p.1 ++ pumpRun cfg (parts.getLastD []) p.2 rest

def pump (cfg : PumpCfg) (chunks : List (List Char)) : List (List Char) :=
  pumpRun cfg [] false chunks

theorem processLines_append (cfg : PumpCfg) (s : Bool) (xs ys : List (List Char)) :
    processLines cfg s (xs ++ ys) =
      ((processLines cfg s xs).1 ++ (processLines cfg (processLines cfg s xs).2 ys).1,
        (processLines cfg (processLines cfg s xs).2 ys).2) := by
  induction xs generalizing s with
  | nil => simp [processLines]
  | cons x xs ih => simp [processLines, ih, List.append_assoc]

/-- The pump's output over a chunk sequence equals the output over the
complete lines of the whole concatenation, followed by the buffer flush
and the synthesized terminal frame. -/
theorem pumpRun_eq (cfg : PumpCfg) (chunks : List (List Char)) :
    ∀ (buffer : List Char) (s : Bool), '\n' ∉ buffer →
    pumpRun cfg buffer s chunks =
      (processLines cfg s (splitNl (buffer ++ chunks.flatten)).dropLast).1
        ++ flushBuffer ((splitNl (buffer ++ chunks.flatten)).getLastD [])
        ++ [doneFrame] := by
  induction chunks with
  | nil =>
    intro buffer s hb
    simp [pumpRun, splitNl_no_newline buffer hb, List.getLastD, processLines]
  | cons c cs ih =>
    intro buffer s hb
    have hb' : '\n' ∉ (splitNl (buffer ++ c)).getLastD [] := getLastD_splitNl_no_newline _
    simp only [pumpRun]
    rw [ih _ _ hb']
    have h1 : splitNl ((splitNl (buffer ++ c)).getLastD [] ++ cs.flatten)
        = joinHead ((splitNl (buffer ++ c)).getLastD []) (splitNl cs.flatten) := by
      rw [splitNl_append, splitNl_no_newline _ hb']
      rfl
    have h2 : splitNl (buffer ++ (c :: cs).flatten)
        = glue (splitNl (buffer ++ c)) (splitNl cs.flatten) := by
      rw [List.flatten_cons, ← List.append_assoc, splitNl_append]
    rw [h1, h2, glue_eq_dropLast_append _ _ (splitNl_ne_nil _),
      List.dropLast_append_of_ne_nil _ (joinHead_ne_nil _ _), processLines_append]
    have h3 : (((splitNl (buffer ++ c)).dropLast
          ++ joinHead ((splitNl (buffer ++ c)).getLastD []) (splitNl cs.flatten))).getLastD []
        = (joinHead ((splitNl (buffer ++ c)).getLastD []) (splitNl cs.flatten)).getLastD [] := by
      simp only [List.getLastD_eq_getLast?]
      rw [List.getLast?_append_of_ne_nil _ (joinHead_ne_nil _ _)]
    rw [h3]
    simp [List.append_assoc]

/-- A concrete pump configuration for counterexamples and witnesses:
reasoning shown, `JSON.parse` always throws, `JSON.stringify` returns the
empty text. -/
def cfg0 : PumpCfg := ⟨true, fun _ => .fail, fun _ _ => []⟩

theorem append_nl2_eq_doneFrame (l : List Char) : l ++ nl2 = doneFrame ↔ l = doneLineRaw := by
  constructor
  · intro h
    have h2 : l ++ nl2 = doneLineRaw ++ nl2 := by rw [h]; decide
    exact List.append_cancel_right h2
  · intro h
    subst h
    decide

theorem marker_wrap_eq_doneFrame (x : List Char) :
    dataMarker ++ x ++ nl2 = doneFrame ↔ x = doneTok := by
  constructor
  · intro h
    have h2 : dataMarker ++ (x ++ nl2) = dataMarker ++ (doneTok ++ nl2) := by
      rw [← List.append_assoc, h]
      decide
    exact List.append_cancel_right (List.append_cancel_left h2)
  · intro h
    subst h
    decide

theorem processLine_count_done (cfg : PumpCfg)
    (hser : ∀ l d, cfg.ser l d ≠ doneTok)
    (hother : ∀ l out, cfg.parse l = .other out → out ≠ doneTok)
    (s : Bool) (l : List Char) :
    ((processLine cfg s l).1).count doneFrame = if l = doneLineRaw then 1 else 0 := by
  unfold processLine
  by_cases hb : isBlankL l
  · have hne : l ≠ doneLineRaw := by
      intro h
      subst h
      exact absurd hb (by decide)
    simp [hb, hne]
  · simp only [hb, Bool.false_eq_true, if_false]
    by_cases hp : dataMarker.isPrefixOf l
    · by_cases hd : hasTok doneTok l
      · simp only [hp, hd, if_true]
        by_cases hl : l = doneLineRaw
        · subst hl
          simp [List.count_cons, show doneLineRaw ++ nl2 = doneFrame from by decide]
        · have : l ++ nl2 ≠ doneFrame := fun h => hl ((append_nl2_eq_doneFrame l).mp h)
          simp [List.count_cons, hl, this]
      · have hne : l ≠ doneLineRaw := by
          intro h
          subst h
          exact absurd (by decide : hasTok doneTok doneLineRaw = true) (by simpa using hd)
        simp only [hp, hd, if_true, Bool.false_eq_true, if_false, hne]
        cases hpar : cfg.parse (l.drop 6) with
        | fail =>
          have : l ++ nl2 ≠ doneFrame := fun h => hne ((append_nl2_eq_doneFrame l).mp h)
          simp [List.count_cons, this]
        | other out =>
          have : dataMarker ++ out ++ nl2 ≠ doneFrame := fun h =>
            hother _ _ hpar ((marker_wrap_eq_doneFrame out).mp h)
          simp [List.count_cons, ← List.append_assoc, this]
        | delta d =>
          have : dataMarker ++ cfg.ser l (mergeStep cfg.showReasoning s d).1 ++ nl2 ≠ doneFrame :=
            fun h => hser _ _ ((marker_wrap_eq_doneFrame _).mp h)
          simp [List.count_cons, ← List.append_assoc, this]
    · have hne : l ≠ doneLineRaw := by
        intro h
        subst h
        exact absurd (by decide : dataMarker.isPrefixOf doneLineRaw = true) (by simpa using hp)
      simp [hp, hne]

theorem processLines_count_done (cfg : PumpCfg)
    (hser : ∀ l d, cfg.ser l d ≠ doneTok)
    (hother : ∀ l out, cfg.parse l = .other out → out ≠ doneTok)
    (s : Bool) (ls : List (List Char)) :
    ((processLines cfg s ls).1).count doneFrame = ls.count doneLineRaw := by
  induction ls generalizing s with
  | nil => simp [processLines]
  | cons l ls ih =>
    simp only [processLines, List.count_append, List.count_cons,
      ih (processLine cfg s l).2, processLine_count_done cfg hser hother s l]
    by_cases hl : l = doneLineRaw
    · simp [hl]
      omega
    · simp [hl]

theorem flushBuffer_count_done (buffer : List Char) :
    (flushBuffer buffer).count doneFrame = 0 := by
  rw [List.count_eq_zero]
  intro hmem
  unfold flushBuffer at hmem
  split at hmem
  · simp at hmem
  · simp only [List.mem_filterMap] at hmem
    obtain ⟨l, _, hif⟩ := hmem
    split at hif
    · rename_i hcond
      have heq : l ++ nl2 = doneFrame := by injection hif
      have hl : l = doneLineRaw := (append_nl2_eq_doneFrame l).mp heq
      subst hl
      rw [show hasTok doneTok doneLineRaw = true from by decide] at hcond
      simp at hcond
    · exact Option.noConfusion hif

/-- C3 counterexample: upstream sends exactly one terminal frame
(`data: [DONE]` as a complete line), yet the client receives two terminal
frames, because line 179 forwards the upstream terminal line verbatim and
line 166 always synthesizes another at end-of-input — so the downstream
client does not receive exactly one terminal frame. -/
theorem terminal_frame_not_deduplicated :
    ¬(pump cfg0 ["data: [DONE]\n".toList]).count doneFrame = 1 := by decide

/-- C3 amended: the pump synthesizes exactly one terminal frame at
end-of-input, but upstream terminal frames are forwarded rather than
suppressed: the client receives one canonical terminal frame per complete
upstream `data: [DONE]` line, plus the single synthesized one (terminal
lines stuck in the trailing buffer are dropped by the flush of lines
152-164). -/
theorem terminal_frame_count (cfg : PumpCfg)
    (hser : ∀ l d, cfg.ser l d ≠ doneTok)
    (hother : ∀ l out, cfg.parse l = .other out → out ≠ doneTok)
    (chunks : List (List Char)) :
    (pump cfg chunks).count doneFrame
      = ((splitNl chunks.flatten).dropLast).count doneLineRaw + 1 := by
  unfold pump
  rw [pumpRun_eq cfg chunks [] false (by simp)]
  simp only [List.nil_append, List.count_append,
    processLines_count_done cfg hser hother, flushBuffer_count_done]
  simp [List.count_cons]

/-- Witness for C3 at a stream carrying one upstream terminal line and
one data line. -/
theorem terminal_frame_count_witness :
    (pump cfg0 ["data: [DONE]\ndata: hi\n".toList]).count doneFrame
      = ((splitNl (["data: [DONE]\ndata: hi\n".toList] :
          List (List Char)).flatten).dropLast).count doneLineRaw + 1 :=
  terminal_frame_count cfg0
    (fun l d => by exact (by decide : ([] : List Char) ≠ doneTok))
    (fun l out h => nomatch h) _

/-- C4 counterexample: the non-blank line `"hello"` does not begin with
the `data: ` marker; it matches no branch of lines 174-230 and produces
no output frame at all — in a full exchange the client receives only the
synthesized terminal frame. The claim's pass-through of marker-less lines
fails. -/
theorem nonmarker_line_dropped :
    isBlankL "hello".toList = false
      ∧ (processLine cfg0 false "hello".toList).1 = []
      ∧ pump cfg0 ["hello\n".toList] = [doneFrame] := by decide

/-- C4 amended: every non-blank line beginning with `data: ` yields
exactly one output frame (forwarded verbatim for terminal lines and for
lines whose JSON fails to parse, merged and re-serialized otherwise),
but a non-blank line not beginning with the marker is silently dropped
rather than passed through. -/
theorem per_line_output (cfg : PumpCfg) (s : Bool) (l : List Char)
    (hb : isBlankL l = false) :
    (dataMarker.isPrefixOf l = true → (processLine cfg s l).1.length = 1)
  ∧ (dataMarker.isPrefixOf l = true → hasTok doneTok l = true →
      (processLine cfg s l).1 = [l ++ nl2])
  ∧ (dataMarker.isPrefixOf l = true → hasTok doneTok l = false →
      cfg.parse (l.drop 6) = .fail → (processLine cfg s l).1 = [l ++ nl2])
  ∧ (dataMarker.isPrefixOf l = false → (processLine cfg s l).1 = []) := by
  unfold processLine
  simp only [hb, Bool.false_eq_true, if_false]
  refine ⟨?_, ?_, ?_, ?_⟩
  · intro hp
    simp only [hp, if_true]
    by_cases hd : hasTok doneTok l
    · simp [hd]
    · simp only [hd, Bool.false_eq_true, if_false]
      cases cfg.parse (l.drop 6) <;> simp
  · intro hp hd
    simp [hp, hd]
  · intro hp hd hpar
    simp [hp, hd, hpar]
  · intro hp
    simp [hp]

/-- Witness for C4 at the non-blank data line `"data: x"`. -/
theorem per_line_output_witness :
    isBlankL "data: x".toList = false
      ∧ ((dataMarker.isPrefixOf "data: x".toList = true →
            (processLine cfg0 false "data: x".toList).1.length = 1)
        ∧ (dataMarker.isPrefixOf "data: x".toList = true →
            hasTok doneTok "data: x".toList = true →
            (processLine cfg0 false "data: x".toList).1 = ["data: x".toList ++ nl2])
        ∧ (dataMarker.isPrefixOf "data: x".toList = true →
            hasTok doneTok "data: x".toList = false →
            cfg0.parse ("data: x".toList.drop 6) = .fail →
            (processLine cfg0 false "data: x".toList).1 = ["data: x".toList ++ nl2])
        ∧ (dataMarker.isPrefixOf "data: x".toList = false →
            (processLine cfg0 false "data: x".toList).1 = [])) :=
  ⟨by decide, per_line_output cfg0 false "data: x".toList (by decide)⟩

theorem append_eq_empty_iff (s t : String) : s ++ t = "" ↔ s = "" ∧ t = "" := by
  constructor
  · intro h
    have hd : s.data ++ t.data = ([] : List Char) := congrArg String.data h
    have h2 := List.append_eq_nil.mp hd
    cases s
    cases t
    simp_all
  · rintro ⟨h1, h2⟩
    rw [h1, h2]
    rfl

theorem isEmpty_append_left (s t : String) (h : s.isEmpty = false) :
    (s ++ t).isEmpty = false := by
  rw [Bool.eq_false_iff]
  intro he
  have h3 : s = "" := ((append_eq_empty_iff s t).mp ((String.isEmpty_iff _).mp he)).1
  rw [h3] at h
  exact absurd h (by decide)

theorem isEmpty_append_right (s t : String) (h : t.isEmpty = false) :
    (s ++ t).isEmpty = false := by
  rw [Bool.eq_false_iff]
  intro he
  have h3 : t = "" := ((append_eq_empty_iff s t).mp ((String.isEmpty_iff _).mp he)).2
  rw [h3] at h
  exact absurd h (by decide)

/-- C1 counterexample: streaming `[{reasoning:"a"}, {reasoning:"b"},
{content:"c"}]` with reasoning displayed concatenates to
`"<think>\nab\n</think>\n\nc"` — the code inserts no separator between
successive reasoning deltas (line 198) — not to the claimed
`"<think>\na\nb\n</think>\n\nc"`. -/
theorem merge_examples_counterexample :
    ¬streamContent true [⟨some "a", none, []⟩, ⟨some "b", none, []⟩, ⟨none, some "c", []⟩]
        = "<think>\na\nb\n</think>\n\nc" := by decide

/-- C1 amended: with reasoning displayed, the three example streams merge
to `"<think>\nab\n</think>\n\nc"` (maximal reasoning runs are wrapped in
the markers, with the run's deltas concatenated directly), `"x"` with no
markers, and `"<think>\nr\n</think>\n\na"`; the both-fields payload
returns the state to closed. -/
theorem merge_examples :
    streamContent true [⟨some "a", none, []⟩, ⟨some "b", none, []⟩, ⟨none, some "c", []⟩]
        = "<think>\nab\n</think>\n\nc"
  ∧ streamContent true [⟨none, some "x", []⟩] = "x"
  ∧ streamContent true [⟨some "r", some "a", []⟩] = "<think>\nr\n</think>\n\na"
  ∧ (runMerge true false [⟨some "r", some "a", []⟩]).2 = false := by decide

/-- C5: with reasoning hidden, the state threads through every payload
unchanged (`reasoningOpen` is never set), and every rewritten delta has
its reasoning field removed and carries exactly the answer text when
present and `""` otherwise — no markers are ever added. -/
theorem hidden_reasoning_merge (s : Bool) (ds : List Delta) :
    (runMerge false s ds).2 = s
  ∧ (runMerge false s ds).1 = ds.map mergeFalse
  ∧ ∀ d : Delta, (mergeFalse d).reasoning_content = none
      ∧ (mergeFalse d).content = some (strVal d.content)
      ∧ (mergeFalse d).rest = d.rest := by
  refine ⟨?_, ?_, ?_⟩
  · induction ds generalizing s with
    | nil => rfl
    | cons d ds ih => simp [runMerge, mergeStep, ih]
  · induction ds generalizing s with
    | nil => rfl
    | cons d ds ih => simp [runMerge, mergeStep, ih]
  · intro d
    refine ⟨rfl, ?_, rfl⟩
    show (if truthy d.content then d.content else some "") = some (strVal d.content)
    cases hc : d.content with
    | none => rfl
    | some str =>
      by_cases hs : str.isEmpty
      · have : str = "" := (String.isEmpty_iff str).mp hs
        simp [truthy, hs, strVal, this]
      · simp [truthy, hs, strVal]

theorem strVal_not_empty (o : Option String) (h : truthy o = true) :
    (strVal o).isEmpty = false := by
  cases o with
  | none => simp [truthy] at h
  | some str => simpa [truthy, strVal] using h

theorem thinkOpenTag_not_empty : thinkOpenTag.isEmpty = false := by decide

/-- When reasoning is shown and either delta field is truthy,
`combinedContent` of lines 192-207 is nonempty, so the rewrite of lines
208-211 happens: the reasoning field is deleted and only the non-content
fields survive unchanged. -/
theorem mergeTrue_rewrites (s : Bool) (d : Delta)
    (h : (truthy d.reasoning_content || truthy d.content) = true) :
    (mergeTrue s d).1.reasoning_content = none ∧ (mergeTrue s d).1.rest = d.rest := by
  by_cases hr : truthy d.reasoning_content <;> by_cases hc : truthy d.content <;> cases s <;>
    simp_all [mergeTrue, isEmpty_append_left, isEmpty_append_right, strVal_not_empty,
      thinkOpenTag_not_empty]

/-- When reasoning is shown and both fields are absent or empty,
`combinedContent` stays empty and the delta passes through unchanged. -/
theorem mergeTrue_skips (s : Bool) (d : Delta)
    (hr : truthy d.reasoning_content = false) (hc : truthy d.content = false) :
    (mergeTrue s d).1 = d := by
  cases s <;> simp [mergeTrue, hr, hc, show "".isEmpty = true from rfl]

/-- C7 counterexample: with reasoning displayed, a delta whose reasoning
field is present but empty (`{reasoning_content: ""}`) makes
`combinedContent` empty, so the rewrite of lines 209-210 is skipped and
the reasoning field survives in the output payload — it is not removed
"in all cases". -/
theorem reasoning_field_survives :
    ((mergeStep true false ⟨some "", none, []⟩).1).reasoning_content ≠ none := by decide

/-- C7 amended: the merger never alters the non-content fields of a
delta, and the reasoning field is removed whenever reasoning is hidden,
or reasoning is shown and either field carries text; but when reasoning
is shown and both fields are absent or empty, the delta passes through
unchanged, so a present-but-empty reasoning field survives. -/
theorem merge_field_effect (showR s : Bool) (d : Delta) :
    ((mergeStep showR s d).1).rest = d.rest
  ∧ (showR = false → ((mergeStep showR s d).1).reasoning_content = none)
  ∧ (showR = true → (truthy d.reasoning_content || truthy d.content) = true →
      ((mergeStep showR s d).1).reasoning_content = none)
  ∧ (showR = true → truthy d.reasoning_content = false → truthy d.content = false →
      (mergeStep showR s d).1 = d) := by
  cases showR with
  | false =>
    refine ⟨rfl, fun _ => rfl, fun h => absurd h (by simp), fun h => absurd h (by simp)⟩
  | true =>
    refine ⟨?_, fun h => absurd h (by simp), fun _ h => (mergeTrue_rewrites s d h).1,
      fun _ hr hc => mergeTrue_skips s d hr hc⟩
    show (mergeTrue s d).1.rest = d.rest
    by_cases h : (truthy d.reasoning_content || truthy d.content) = true
    · exact (mergeTrue_rewrites s d h).2
    · rw [mergeTrue_skips s d (by simpa using (Bool.or_eq_false_iff.mp (by simpa using h)).1)
        (by simpa using (Bool.or_eq_false_iff.mp (by simpa using h)).2)]

theorem mergeTrue_skip (s : Bool) (d : Delta) (hr : truthy d.reasoning_content = false)
    (hc : truthy d.content = false) : mergeTrue s d = (d, s) := by
  cases s <;> simp [mergeTrue, hr, hc, show "".isEmpty = true from rfl]

theorem mergeTrue_reasoning_only (r : Option String) (hr : truthy r = true) :
    mergeTrue false ⟨r, none, []⟩
      = (⟨none, some (thinkOpenTag ++ strVal r), []⟩, true) := by
  simp [mergeTrue, hr, show truthy none = false from rfl, isEmpty_append_left,
    thinkOpenTag_not_empty]

theorem mergeTrue_content_only_open (a : Option String) (ha : truthy a = true) :
    mergeTrue true ⟨none, a, []⟩
      = (⟨none, some (thinkCloseTag ++ strVal a), []⟩, false) := by
  simp [mergeTrue, ha, show truthy none = false from rfl, isEmpty_append_left,
    show thinkCloseTag.isEmpty = false from by decide]

theorem mergeTrue_content_only_closed (a : Option String) (ha : truthy a = true) :
    mergeTrue false ⟨none, a, []⟩ = (⟨none, some (strVal a), []⟩, false) := by
  simp [mergeTrue, ha, show truthy none = false from rfl, strVal_not_empty]

/-- The (reasoning, answer) pair streamed as two successive delta
payloads, as a streamed exchange delivers them. -/
def streamPair (r a : Option String) : String :=
  streamContent true [⟨r, none, []⟩, ⟨none, a, []⟩]

/-- Lines 269-274 of `worker.js`: the one-shot non-streaming merge of a
(reasoning, answer) message (`choice.message.reasoning_content`,
`choice.message.content`): `fullContent = content || ''`, wrapped in the
markers when reasoning is shown and present. -/
def oneShotMerge (showR : Bool) (r a : Option String) : String :=
  let full := if truthy a then strVal a else ""
  if showR && truthy r then thinkOpenTag ++ strVal r ++ thinkCloseTag ++ full
  else full

/-- C6 counterexample: for the pair (reasoning `"r"`, answer `""`) the
streamed merge concatenates to `"<think>\nr"` — the think block is never
closed because line 201 requires truthy content — while the one-shot
merge yields `"<think>\nr\n</think>\n\n"`. The claimed equivalence fails
for this pair. -/
theorem streaming_oneshot_divergence :
    ¬streamPair (some "r") (some "") = oneShotMerge true (some "r") (some "") := by decide

/-- C6 amended: the streamed merge of a (reasoning, answer) pair equals
the one-shot non-streaming merge whenever the answer text is nonempty or
the reasoning text is empty/absent; when reasoning is present and the
answer is empty, streaming leaves the think block unclosed whereas the
one-shot merge closes it. -/
theorem streaming_eq_oneshot (r a : Option String)
    (h : truthy a = true ∨ truthy r = false) :
    streamPair r a = oneShotMerge true r a := by
  by_cases hr : truthy r
  · have ha : truthy a = true := h.resolve_right (by simp [hr])
    simp only [streamPair, streamContent, runMerge, mergeStep, if_true,
      mergeTrue_reasoning_only r hr]
    simp only [mergeTrue_content_only_open a ha]
    simp [oneShotMerge, hr, ha, strVal, String.append_assoc]
  · have hr' : truthy r = false := by simpa using hr
    by_cases ha : truthy a
    · simp only [streamPair, streamContent, runMerge, mergeStep, if_true,
        mergeTrue_skip false ⟨r, none, []⟩ hr' rfl]
      simp only [mergeTrue_content_only_closed a ha]
      simp [oneShotMerge, hr', ha, strVal]
    · have ha' : truthy a = false := by simpa using ha
      simp only [streamPair, streamContent, runMerge, mergeStep, if_true,
        mergeTrue_skip false ⟨r, none, []⟩ hr' rfl]
      simp only [mergeTrue_skip false ⟨none, a, []⟩ rfl ha']
      cases a with
      | none => simp [oneShotMerge, hr', strVal]
      | some str => simp [oneShotMerge, hr', ha', strVal,
          (String.isEmpty_iff str).mp (by simpa [truthy] using ha')]

/-- Witness for C6 at the pair (`"r"`, `"a"`). -/
theorem streaming_eq_oneshot_witness :
    (truthy (some "a") = true ∨ truthy (some "r") = false)
      ∧ streamPair (some "r") (some "a") = oneShotMerge true (some "r") (some "a") :=
  ⟨Or.inl (by decide), streaming_eq_oneshot (some "r") (some "a") (Or.inl (by decide))⟩

/-- One read event from upstream: a delivered chunk, or `reader.read()`
of line 149 throwing with an error message. The event list ending is the
clean `done` signal unless a `fail` occurs first. -/
inductive ReadEv where
  | chunk (s : List Char)
  | fail (msg : List Char)

/-- One observable action on the downstream writer: an attempted
`writer.write` with the text it was given, or the attempted
`writer.close()` of the `finally` block (lines 242-248). -/
inductive Act where
  | write (s : List Char)
  | closeAttempt
  deriving DecidableEq, Repr

/-- The diagnostic frame of line 237:
`data: {"error": "${error.message}"}` plus the blank-line separator. -/
def errFrame (msg : List Char) : List Char :=
  "data: \x7b\"error\": \"".toList ++ msg ++ "\"\x7d\n\n".toList

/-- Attempt the writes of a list of texts in order (each
`await writer.write(...)`), consulting the failure oracle `wres` by
write index (`none` = success, `some m` = the write throws with message
`m`); stops at the first failure. Returns the attempted actions, the
next write index, and the error if one occurred. -/
def writeSeq (wres : Nat → Option (List Char)) :
    Nat → List (List Char) → List Act × Nat × Option (List Char)
  | n, [] => ([], n, none)
  | n, o :: os =>
    match wres n with
    | some m => ([.write o], n + 1, some m)
    | none =>
      let q := writeSeq wres (n + 1) os
      (.write o :: q.1, q.2.1, q.2.2)

/-- The per-line flush writes of lines 157-162: each write sits in its
own `try`/`catch` that only logs, so every line is attempted and a write
failure is swallowed rather than escalated; the write index still
advances per attempt. -/
def writeAllSwallow : Nat → List (List Char) → List Act × Nat
  | n, [] => ([], n)
  | n, o :: os =>
    let q := writeAllSwallow (n + 1) os
    (.write o :: q.1, q.2)

/-- The try-block of lines 147-232: loop over the read events, writing
every produced frame, until clean end-of-input (with buffer flush —
whose per-line write failures are swallowed — and the synthesized
terminal frame of line 166, whose failure escalates), a read failure, or
a write failure in the main loop. -/
def pumpLoop (cfg : PumpCfg) (wres : Nat → Option (List Char)) :
    List Char → Bool → Nat → List ReadEv → List Act × Nat × Option (List Char)
  | buffer, _, n, [] =>
    let f := writeAllSwallow n (flushBuffer buffer)
    let w := writeSeq wres f.2 [doneFrame]
    (f.1 ++ w.1, w.2)
  | _, _, n, .fail m :: _ => ([], n, some m)
  | buffer, s, n, .chunk c :: rest =>
    let parts := splitNl (buffer ++ c)
    let p := processLines cfg s parts.dropLast
    let w := writeSeq wres n p.1
    match w.2.2 with
    | some m => (w.1, w.2.1, some m)
    | none =>
      let q := pumpLoop cfg wres (parts.getLastD []) p.2 w.2.1 rest
      (w.1 ++ q.1, q.2.1, q.2.2)

/-- Lines 146-249 in full: run the loop; on a caught error, attempt the
diagnostic frame of line 237 and — only when that write succeeds, both
writes sitting in one inner `try` — the terminal frame of line 238,
their failures swallowed by the inner `catch`; then always attempt
`writer.close()` once in the `finally`, whose own failure is swallowed
too. Returns the action trace and the caught error, if any. -/
def pumpE (cfg : PumpCfg) (wres : Nat → Option (List Char)) (events : List ReadEv) :
    List Act × Option (List Char) :=
  let r := pumpLoop cfg wres [] false 0 events
  match r.2.2 with
  | none => (r.1 ++ [.closeAttempt], none)
  | some m =>
    match wres r.2.1 with
    | some _ => (r.1 ++ [.write (errFrame m), .closeAttempt], some m)
    | none => (r.1 ++ [.write (errFrame m), .write doneFrame, .closeAttempt], some m)

theorem closeAttempt_not_mem_writeSeq (wres : Nat → Option (List Char))
    (n : Nat) (os : List (List Char)) : Act.closeAttempt ∉ (writeSeq wres n os).1 := by
  induction os generalizing n with
  | nil => simp [writeSeq]
  | cons o os ih =>
    simp only [writeSeq]
    cases wres n with
    | some m => simp
    | none => simp [ih]

theorem closeAttempt_not_mem_writeAllSwallow (n : Nat) (os : List (List Char)) :
    Act.closeAttempt ∉ (writeAllSwallow n os).1 := by
  induction os generalizing n with
  | nil => simp [writeAllSwallow]
  | cons o os ih => simp [writeAllSwallow, ih]

theorem closeAttempt_not_mem_pumpLoop (cfg : PumpCfg) (wres : Nat → Option (List Char))
    (events : List ReadEv) : ∀ (buffer : List Char) (s : Bool) (n : Nat),
    Act.closeAttempt ∉ (pumpLoop cfg wres buffer s n events).1 := by
  induction events with
  | nil =>
    intro buffer s n
    simp [pumpLoop, closeAttempt_not_mem_writeSeq, closeAttempt_not_mem_writeAllSwallow]
  | cons e rest ih =>
    intro buffer s n
    cases e with
    | fail m => simp [pumpLoop]
    | chunk c =>
      simp only [pumpLoop]
      split
      · exact closeAttempt_not_mem_writeSeq wres n _
      · simp only [List.mem_append, not_or]
        exact ⟨closeAttempt_not_mem_writeSeq wres n _, ih _ _ _⟩

/-- C8: for every upstream event sequence and every pattern of write
failures, the downstream writer is closed exactly once, as the very last
action, in every outcome (clean end, read failure, write failure, and
whether or not the cleanup writes succeed); and whenever an error is
caught, the trace ends with the diagnostic frame carrying the error
description, followed by the terminal frame — the terminal write
attempted exactly when the diagnostic write succeeds, both sitting in
one inner `try` — followed by the close. The trace always completes
normally: failures of the cleanup writes and of the close itself are
swallowed. -/
theorem pump_cleanup_guarantee (cfg : PumpCfg) (wres : Nat → Option (List Char))
    (events : List ReadEv) :
    ((pumpE cfg wres events).1).count .closeAttempt = 1
  ∧ ((pumpE cfg wres events).1).getLast? = some .closeAttempt
  ∧ (∀ m, (pumpE cfg wres events).2 = some m →
      Act.write (errFrame m) ∈ (pumpE cfg wres events).1)
  ∧ (∀ m, (pumpE cfg wres events).2 = some m →
      ∃ pre : List Act,
        (wres (pumpLoop cfg wres [] false 0 events).2.1 = none →
          (pumpE cfg wres events).1
            = pre ++ [Act.write (errFrame m), Act.write doneFrame, Act.closeAttempt])
        ∧ (wres (pumpLoop cfg wres [] false 0 events).2.1 ≠ none →
          (pumpE cfg wres events).1
            = pre ++ [Act.write (errFrame m), Act.closeAttempt])) := by
  have hno : Act.closeAttempt ∉ (pumpLoop cfg wres [] false 0 events).1 :=
    closeAttempt_not_mem_pumpLoop cfg wres events [] false 0
  have hcount : ((pumpLoop cfg wres [] false 0 events).1).count Act.closeAttempt = 0 :=
    List.count_eq_zero.mpr hno
  unfold pumpE
  cases he : (pumpLoop cfg wres [] false 0 events).2.2 with
  | none =>
    simp only [he]
    refine ⟨?_, List.getLast?_concat _, ?_, ?_⟩
    · simp [List.count_append, hcount]
    · intro m hm
      exact absurd hm (by simp)
    · intro m hm
      exact absurd hm (by simp)
  | some m0 =>
    cases hw : wres (pumpLoop cfg wres [] false 0 events).2.1 with
    | some mw =>
      simp only [he, hw]
      refine ⟨?_, ?_, ?_, ?_⟩
      · simp [List.count_append, List.count_cons, hcount]
      · rw [show (pumpLoop cfg wres [] false 0 events).1
            ++ [Act.write (errFrame m0), Act.closeAttempt]
            = ((pumpLoop cfg wres [] false 0 events).1 ++ [Act.write (errFrame m0)])
            ++ [Act.closeAttempt] by simp]
        exact List.getLast?_concat _
      · intro m hm
        have : m = m0 := by
          have := hm
          simp at this
          exact this.symm
        subst this
        simp
      · intro m hm
        have : m = m0 := by
          have := hm
          simp at this
          exact this.symm
        subst this
        exact ⟨(pumpLoop cfg wres [] false 0 events).1,
          fun hcontra => absurd hcontra (by simp), fun _ => rfl⟩
    | none =>
      simp only [he, hw]
      refine ⟨?_, ?_, ?_, ?_⟩
      · simp [List.count_append, List.count_cons, hcount]
      · rw [show (pumpLoop cfg wres [] false 0 events).1
            ++ [Act.write (errFrame m0), Act.write doneFrame, Act.closeAttempt]
            = ((pumpLoop cfg wres [] false 0 events).1
                ++ [Act.write (errFrame m0), Act.write doneFrame])
            ++ [Act.closeAttempt] by simp]
        exact List.getLast?_concat _
      · intro m hm
        have : m = m0 := by
          have := hm
          simp at this
          exact this.symm
        subst this
        simp
      · intro m hm
        have : m = m0 := by
          have := hm
          simp at this
          exact this.symm
        subst this
        exact ⟨(pumpLoop cfg wres [] false 0 events).1,
          fun _ => rfl, fun hcontra => absurd rfl hcontra⟩

/-- Witness for C8: a run whose only event is a read failure with
message `"boom"` and no write failures: the writer is closed exactly
once, the diagnostic frame carrying `"boom"` was attempted, and the
trace ends with the diagnostic frame, the terminal frame, and the
close, in that order. -/
theorem pump_cleanup_guarantee_witness :
    ((pumpE cfg0 (fun _ => none) [.fail "boom".toList]).1).count .closeAttempt = 1
  ∧ Act.write (errFrame "boom".toList) ∈ (pumpE cfg0 (fun _ => none) [.fail "boom".toList]).1
  ∧ ∃ pre : List Act,
      (pumpE cfg0 (fun _ => none) [.fail "boom".toList]).1
        = pre ++ [Act.write (errFrame "boom".toList), Act.write doneFrame,
            Act.closeAttempt] := by
  refine ⟨(pump_cleanup_guarantee cfg0 (fun _ => none) [.fail "boom".toList]).1,
    (pump_cleanup_guarantee cfg0 (fun _ => none) [.fail "boom".toList]).2.2.1
      "boom".toList (by decide), ?_⟩
  obtain ⟨pre, h1, _⟩ :=
    (pump_cleanup_guarantee cfg0 (fun _ => none) [.fail "boom".toList]).2.2.2
      "boom".toList (by decide)
  exact ⟨pre, h1 rfl⟩

/-- Lines 121-133 of `worker.js`: when the upstream chat-completions
response is not OK (`response.ok` means HTTP status 200-299), the worker
returns a structured error response with the upstream status and the
message `errorText || 'NIM API error - check if your API key is valid'`;
`none` models the OK case where streaming proceeds. -/
def upstreamFailureResponse (status : Nat) (bodyText : String) : Option (Nat × String) :=
  if 200 ≤ status ∧ status ≤ 299 then none
  else some (status,
    if bodyText.isEmpty then "NIM API error - check if your API key is valid" else bodyText)

/-- C9 counterexample: upstream status 500 with an empty body yields the
fallback message, not the upstream body text verbatim (which would be
`""`) — `errorText || fallback` replaces the empty body. -/
theorem upstream_error_message_not_verbatim :
    upstreamFailureResponse 500 "" ≠ some (500, "")
      ∧ upstreamFailureResponse 500 ""
        = some (500, "NIM API error - check if your API key is valid") := by decide

/-- C9 amended: on an upstream non-2xx status the caller receives a
structured error whose HTTP status equals the upstream status, and whose
message is the upstream body text verbatim when that text is nonempty,
and the fixed fallback message when the body is empty. -/
theorem upstream_failure_surfaced (status : Nat) (bodyText : String)
    (h : ¬(200 ≤ status ∧ status ≤ 299)) :
    (bodyText ≠ "" → upstreamFailureResponse status bodyText = some (status, bodyText))
  ∧ (bodyText = "" → upstreamFailureResponse status bodyText
      = some (status, "NIM API error - check if your API key is valid")) := by
  constructor
  · intro hb
    have hne : bodyText.isEmpty = false := by
      rw [Bool.eq_false_iff]
      intro he
      exact hb ((String.isEmpty_iff _).mp he)
    simp [upstreamFailureResponse, h, hne]
  · intro hb
    subst hb
    simp [upstreamFailureResponse, h, show "".isEmpty = true from rfl]

/-- Witness for C9 at status 500 with body `"quota exceeded"`. -/
theorem upstream_failure_surfaced_witness :
    ¬(200 ≤ 500 ∧ 500 ≤ 299)
      ∧ (("quota exceeded" : String) ≠ "" →
          upstreamFailureResponse 500 "quota exceeded" = some (500, "quota exceeded"))
      ∧ (("quota exceeded" : String) = "" →
          upstreamFailureResponse 500 "quota exceeded"
            = some (500, "NIM API error - check if your API key is valid")) :=
  ⟨by omega, (upstream_failure_surfaced 500 "quota exceeded" (by omega)).1,
    (upstream_failure_surfaced 500 "quota exceeded" (by omega)).2⟩

/-- JS `x || d` on an optional JSON number: a falsy value (absent,
`null`, `0`) is replaced by the default (`none` models absent/null). -/
def numOr (x : Option ℚ) (d : ℚ) : ℚ :=
  match x with
  | none => d
  | some v => if v = 0 then d else v

/-- The request fields destructured on line 93 of `worker.js` that feed
the forwarded request's numeric and stream parameters. -/
structure ChatRequest where
  model : String
  temperature : Option ℚ
  max_tokens : Option ℚ
  stream : Option Bool

/-- The corresponding fields of the `nimRequest` object. -/
structure NimRequest where
  model : String
  temperature : ℚ
  max_tokens : ℚ
  stream : Bool

/-- Lines 99-105 of `worker.js`: build the forwarded request with the JS
`||` defaults `temperature || 0.6`, `max_tokens || 9024`,
`stream || false`; the model name is used directly. -/
def buildNimRequest (r : ChatRequest) : NimRequest :=
  { model := r.model
    temperature := numOr r.temperature 0.6
    max_tokens := numOr r.max_tokens 9024
    stream := r.stream.getD false }

/-- C10: a missing or falsy temperature is replaced by 0.6 and a missing
or falsy max_tokens by 9024 in the forwarded request; in particular an
explicit client-supplied 0 is overridden by the default rather than
forwarded, while any nonzero value passes through unchanged. -/
theorem request_defaults (r : ChatRequest) :
    ((r.temperature = none ∨ r.temperature = some 0) →
      (buildNimRequest r).temperature = 0.6)
  ∧ ((r.max_tokens = none ∨ r.max_tokens = some 0) →
      (buildNimRequest r).max_tokens = 9024)
  ∧ (∀ v : ℚ, v ≠ 0 → r.temperature = some v → (buildNimRequest r).temperature = v)
  ∧ (∀ v : ℚ, v ≠ 0 → r.max_tokens = some v → (buildNimRequest r).max_tokens = v) := by
  refine ⟨?_, ?_, ?_, ?_⟩
  · rintro (h | h) <;> simp [buildNimRequest, numOr, h]
  · rintro (h | h) <;> simp [buildNimRequest, numOr, h]
  · intro v hv h
    simp [buildNimRequest, numOr, h, hv]
  · intro v hv h
    simp [buildNimRequest, numOr, h, hv]

/-- Witness for C10: an explicit temperature of 0 and an absent
max_tokens are both replaced by the defaults. -/
theorem request_defaults_witness :
    (buildNimRequest ⟨"m", some 0, none, none⟩).temperature = 0.6
  ∧ (buildNimRequest ⟨"m", some 0, none, none⟩).max_tokens = 9024 :=
  ⟨(request_defaults ⟨"m", some 0, none, none⟩).1 (Or.inr rfl),
    (request_defaults ⟨"m", some 0, none, none⟩).2.1 (Or.inl rfl)⟩

/-- Witness for C7 at a delta carrying both fields and a non-content
field. -/
theorem merge_field_effect_witness :
    ((mergeStep true false ⟨some "r", some "a", [("id", "1")]⟩).1).rest = [("id", "1")]
  ∧ ((mergeStep true false ⟨some "r", some "a", [("id", "1")]⟩).1).reasoning_content = none :=
  ⟨(merge_field_effect true false ⟨some "r", some "a", [("id", "1")]⟩).1,
    (merge_field_effect true false ⟨some "r", some "a", [("id", "1")]⟩).2.2.1 rfl (by decide)⟩
